import Mathlib

/-!
Verification of the dyn-timeout crate (src/std_thread.rs, src/tokio_impl.rs,
src/tokio.rs).

Conventions of the embedding:
* `Duration` is modelled as `ℕ` (a count of nanoseconds; `Duration::ZERO = 0`,
  `Duration::default() = 0`; comparison and addition are those of `ℕ`, and the
  only subtraction performed by the code, `pop_dur - dur`, is guarded by
  `pop_dur > dur`, so truncated `ℕ` subtraction is exact there).
* The shared `Vec<Duration>` is modelled as `List ℕ` with the list HEAD
  corresponding to the END of the `Vec` (the push/pop side): `Vec::push d`
  becomes `d :: l`, `Vec::pop` takes the head, and the constructor's seed
  `vec![Duration::ZERO, dur]` becomes `[dur, 0]` (the zero anchor is the
  bottom, i.e. the last element of the list).
* The worker thread/task, the mutex and the atomic flag are modelled by a
  `TimerState` record holding the queue, the cancellation flag, the number of
  callback invocations so far (`calls`) and whether the worker has reached its
  terminal state (`terminal`).  Mutex-protected critical sections of the Rust
  code become atomic transformations of this record; the real-time sleeps have
  no effect on the shared state and are elided.
-/

/-- Shared state of one timer: the duration queue (head = consumption end),
the cancellation flag, the number of completion-action invocations performed
by the worker so far, and whether the worker has finished. -/
structure TimerState where
  durations : List ℕ
  cancelled : Bool
  calls : ℕ
  terminal : Bool
deriving DecidableEq

namespace std_thread

/-- `DynTimeout::new` (std_thread.rs:52-68): seeds the queue with
`vec![Duration::ZERO, dur]` (head of the list = end of the Vec, so `[dur, 0]`),
the flag with `false`, and spawns the worker (not yet terminal, no calls). -/
def init (dur : ℕ) : TimerState :=
  ⟨[dur, 0], false, 0, false⟩

/-- The number of callback invocations the worker performs
(std_thread.rs:58-65) when it drains queue `l` and the cancellation flag
reads `c` at the post-drain check: the loop pops until the queue is empty,
then runs `if thread_cancelled.load(..) { callback(); }`. -/
def workerCalls (c : Bool) : List ℕ → ℕ
  | _ :: t => workerCalls c t
  | [] => if c then 1 else 0

/-- One iteration of the worker's drain loop (std_thread.rs:59-64) as a step
on the shared state: pop a segment (and sleep, invisible here), or, on an
empty queue, exit the loop, perform the `if cancelled { callback() }` check
and become terminal. A terminal worker does nothing. -/
def workerStep (s : TimerState) : TimerState :=
  if s.terminal then s
  else
    match s.durations with
    | _ :: t => { s with durations := t }
    | [] => { s with terminal := true,
                     calls := s.calls + (if s.cancelled then 1 else 0) }

/-- `DynTimeout::add` (std_thread.rs:88-99): bail if the queue is empty,
otherwise push the new duration; `none` models the `bail!` error. -/
def add (dur : ℕ) (l : List ℕ) : Option (List ℕ) :=
  if l = [] then none else some (dur :: l)

/-- The `while pop_dur < dur && durations.len() > 1` loop of `DynTimeout::sub`
(std_thread.rs:133-136), returning the final accumulator `pop_dur` and the
remaining queue. -/
def subLoop (dur : ℕ) (p : ℕ) : List ℕ → ℕ × List ℕ
  | [] => (p, [])
  | d :: t =>
    if p < dur ∧ t ≠ [] then subLoop dur (p + d) t else (p, d :: t)

/-- `DynTimeout::sub` (std_thread.rs:122-141): bail if the queue is empty,
otherwise run the pop loop and push back `pop_dur - dur` when
`pop_dur > dur`. -/
def sub (dur : ℕ) (l : List ℕ) : Option (List ℕ) :=
  if l = [] then none
  else
    let r := subLoop dur 0 l
    some (if dur < r.1 then (r.1 - dur) :: r.2 else r.2)

/-- `DynTimeout::add` acting on the shared state, reporting success: on an
empty queue it bails before any mutation (std_thread.rs:91-93). -/
def addOp (dur : ℕ) (s : TimerState) : TimerState × Bool :=
  match add dur s.durations with
  | some l => ({ s with durations := l }, true)
  | none => (s, false)

/-- `DynTimeout::sub` acting on the shared state, reporting success: on an
empty queue it bails before any mutation (std_thread.rs:125-127). -/
def subOp (dur : ℕ) (s : TimerState) : TimerState × Bool :=
  match sub dur s.durations with
  | some l => ({ s with durations := l }, true)
  | none => (s, false)

/-- `DynTimeout::cancel` (std_thread.rs:166-177): under the lock, store `true`
into the flag and clear the queue; then `join` the worker thread, which drives
the worker to its terminal state: the drain loop observes the emptied queue,
exits, and performs the `if cancelled { callback() }` check (line 62) with the
flag it now reads. `join` on an already-terminal worker changes nothing. The
returned flag is the `Result`: `Ok` unless the callback itself panicked, which
is outside this model, so always `true`. -/
def cancelOp (s : TimerState) : TimerState × Bool :=
  let s1 : TimerState := { s with cancelled := true, durations := [] }
  (if s1.terminal then s1
   else { s1 with terminal := true,
                  calls := s1.calls + (if s1.cancelled then 1 else 0) }, true)

end std_thread

namespace tokio_impl

/-- `DynTimeout::new` (tokio_impl.rs:63-86): seeds the queue with
`vec![Duration::ZERO, dur]` ( `[dur, 0]` in list form), the flag with `false`,
and spawns the worker task. -/
def init (dur : ℕ) : TimerState :=
  ⟨[dur, 0], false, 0, false⟩

/-- `DynTimeout::with_sender` (tokio_impl.rs:106-128): identical shared state
at construction, the completion action being a channel send instead of a
callback. -/
def initWithSender (dur : ℕ) : TimerState :=
  ⟨[dur, 0], false, 0, false⟩

/-- The number of completion-action invocations the worker performs
(tokio_impl.rs:75-84): drain the queue, then run
`if !thread_cancelled.load(..) { callback(); }`. -/
def workerCalls (c : Bool) : List ℕ → ℕ
  | _ :: t => workerCalls c t
  | [] => if c then 0 else 1

/-- One iteration of the worker task's drain loop (tokio_impl.rs:76-83) as a
step on the shared state: pop a segment (the interruptible timed wait is
invisible to the shared state), or, on an empty queue, perform the
`if !cancelled { callback() }` check, send the completion signal and finish.
The task finishing drops the interruption receiver. -/
def workerStep (s : TimerState) : TimerState :=
  if s.terminal then s
  else
    match s.durations with
    | _ :: t => { s with durations := t }
    | [] => { s with terminal := true,
                     calls := s.calls + (if s.cancelled then 0 else 1) }

/-- `DynTimeout::add` (tokio_impl.rs:150-157): bail if the queue is empty,
otherwise push. -/
def add (dur : ℕ) (l : List ℕ) : Option (List ℕ) :=
  if l = [] then none else some (dur :: l)

/-- The pop loop of `DynTimeout::sub` (tokio_impl.rs:188-191). -/
def subLoop (dur : ℕ) (p : ℕ) : List ℕ → ℕ × List ℕ
  | [] => (p, [])
  | d :: t =>
    if p < dur ∧ t ≠ [] then subLoop dur (p + d) t else (p, d :: t)

/-- `DynTimeout::sub` (tokio_impl.rs:183-196). -/
def sub (dur : ℕ) (l : List ℕ) : Option (List ℕ) :=
  if l = [] then none
  else
    let r := subLoop dur 0 l
    some (if dur < r.1 then (r.1 - dur) :: r.2 else r.2)

/-- `DynTimeout::add` acting on the shared state, reporting success. -/
def addOp (dur : ℕ) (s : TimerState) : TimerState × Bool :=
  match add dur s.durations with
  | some l => ({ s with durations := l }, true)
  | none => (s, false)

/-- `DynTimeout::sub` acting on the shared state, reporting success. -/
def subOp (dur : ℕ) (s : TimerState) : TimerState × Bool :=
  match sub dur s.durations with
  | some l => ({ s with durations := l }, true)
  | none => (s, false)

/-- `DynTimeout::cancel` (tokio_impl.rs:221-227): store `true` into the flag,
clear the queue, then `self.sender.send(()).await?`.  The worker task owns the
matching receiver until its async block finishes, so the send — and hence
`cancel` — succeeds exactly when the worker is not yet terminal; once the task
has finished the receiver is dropped and the send returns an error which `?`
propagates.  `cancel` does not drive the worker (it only signals it). -/
def cancelOp (s : TimerState) : TimerState × Bool :=
  ({ s with cancelled := true, durations := [] }, !s.terminal)

end tokio_impl

namespace tokioMod

/-- `DynTimeout::new` of the undeclared module src/tokio.rs (lines 16-33):
seeds the queue with `vec![Duration::ZERO, dur]` and the flag with `false`. -/
def init (dur : ℕ) : TimerState :=
  ⟨[dur, 0], false, 0, false⟩

/-- The worker of src/tokio.rs (lines 21-28): drain the queue, then run
`if thread_cancelled.load(..) { callback(); }`. -/
def workerCalls (c : Bool) : List ℕ → ℕ
  | _ :: t => workerCalls c t
  | [] => if c then 1 else 0

/-- `DynTimeout::add` of src/tokio.rs (lines 34-41). -/
def add (dur : ℕ) (l : List ℕ) : Option (List ℕ) :=
  if l = [] then none else some (dur :: l)

/-- The pop loop of `DynTimeout::sub` of src/tokio.rs (lines 47-50). -/
def subLoop (dur : ℕ) (p : ℕ) : List ℕ → ℕ × List ℕ
  | [] => (p, [])
  | d :: t =>
    if p < dur ∧ t ≠ [] then subLoop dur (p + d) t else (p, d :: t)

/-- `DynTimeout::sub` of src/tokio.rs (lines 42-55). -/
def sub (dur : ℕ) (l : List ℕ) : Option (List ℕ) :=
  if l = [] then none
  else
    let r := subLoop dur 0 l
    some (if dur < r.1 then (r.1 - dur) :: r.2 else r.2)

end tokioMod

/-! ### Helper lemmas about the pop loop of `sub` -/

/-- The pop loop conserves mass: accumulator plus remaining queue mass equals
the initial accumulator plus the initial queue mass. -/
theorem subLoop_sum (dur : ℕ) :
    ∀ (l : List ℕ) (p : ℕ),
      (std_thread.subLoop dur p l).1 + (std_thread.subLoop dur p l).2.sum
        = p + l.sum := by
  intro l
  induction l with
  | nil => intro p; simp [std_thread.subLoop]
  | cons d t ih =>
    intro p
    by_cases h : p < dur ∧ t ≠ []
    · rw [std_thread.subLoop, if_pos h]
      have := ih (p + d)
      simp only [List.sum_cons]
      omega
    · rw [std_thread.subLoop, if_neg h]

/-- The pop loop never empties a non-empty queue. -/
theorem subLoop_ne_nil (dur : ℕ) :
    ∀ (l : List ℕ) (p : ℕ), l ≠ [] → (std_thread.subLoop dur p l).2 ≠ [] := by
  intro l
  induction l with
  | nil => intro p h; exact absurd rfl h
  | cons d t ih =>
    intro p _
    by_cases h : p < dur ∧ t ≠ []
    · rw [std_thread.subLoop, if_pos h]
      exact ih (p + d) h.2
    · rw [std_thread.subLoop, if_neg h]
      simp

/-- When the pop loop stops, either the requested amount has been reached or
at most one segment remains. -/
theorem subLoop_exit (dur : ℕ) :
    ∀ (l : List ℕ) (p : ℕ),
      dur ≤ (std_thread.subLoop dur p l).1
        ∨ (std_thread.subLoop dur p l).2.length ≤ 1 := by
  intro l
  induction l with
  | nil => intro p; right; simp [std_thread.subLoop]
  | cons d t ih =>
    intro p
    by_cases h : p < dur ∧ t ≠ []
    · rw [std_thread.subLoop, if_pos h]
      exact ih (p + d)
    · rw [std_thread.subLoop, if_neg h]
      rcases not_and_or.mp h with h1 | h2
      · left; omega
      · right
        have : t = [] := not_not.mp h2
        simp [this]

/-- The pop loop preserves the bottom (last) element of the queue. -/
theorem subLoop_getLast (dur : ℕ) :
    ∀ (l : List ℕ) (p : ℕ),
      (std_thread.subLoop dur p l).2.getLast? = l.getLast? := by
  intro l
  induction l with
  | nil => intro p; simp [std_thread.subLoop]
  | cons d t ih =>
    intro p
    by_cases h : p < dur ∧ t ≠ []
    · rw [std_thread.subLoop, if_pos h]
      rw [ih (p + d)]
      rcases List.exists_cons_of_ne_nil h.2 with ⟨b, t2, rfl⟩
      simp [List.getLast?_cons_cons]
    · rw [std_thread.subLoop, if_neg h]

/-- The pop loop only ever pops non-bottom segments: the accumulator is
bounded by its start plus the mass of all segments except the last. -/
theorem subLoop_le_dropLast (dur : ℕ) :
    ∀ (l : List ℕ) (p : ℕ),
      (std_thread.subLoop dur p l).1 ≤ p + l.dropLast.sum := by
  intro l
  induction l with
  | nil => intro p; simp [std_thread.subLoop]
  | cons d t ih =>
    intro p
    by_cases h : p < dur ∧ t ≠ []
    · rw [std_thread.subLoop, if_pos h]
      have := ih (p + d)
      rcases List.exists_cons_of_ne_nil h.2 with ⟨b, t2, rfl⟩
      rw [List.dropLast_cons₂]
      simp only [List.sum_cons]
      omega
    · rw [std_thread.subLoop, if_neg h]
      omega

/-! ### The three modules implement the same queue transformations -/

/-- The pop loops of tokio_impl and std_thread coincide. -/
theorem subLoop_ti_eq (dur : ℕ) :
    ∀ (l : List ℕ) (p : ℕ),
      tokio_impl.subLoop dur p l = std_thread.subLoop dur p l := by
  intro l
  induction l with
  | nil => intro p; rfl
  | cons d t ih =>
    intro p
    rw [tokio_impl.subLoop, std_thread.subLoop]
    by_cases h : p < dur ∧ t ≠ []
    · rw [if_pos h, if_pos h, ih]
    · rw [if_neg h, if_neg h]

/-- The pop loops of src/tokio.rs and std_thread coincide. -/
theorem subLoop_tm_eq (dur : ℕ) :
    ∀ (l : List ℕ) (p : ℕ),
      tokioMod.subLoop dur p l = std_thread.subLoop dur p l := by
  intro l
  induction l with
  | nil => intro p; rfl
  | cons d t ih =>
    intro p
    rw [tokioMod.subLoop, std_thread.subLoop]
    by_cases h : p < dur ∧ t ≠ []
    · rw [if_pos h, if_pos h, ih]
    · rw [if_neg h, if_neg h]

/-- `sub` of tokio_impl and of std_thread coincide. -/
theorem sub_ti_eq (dur : ℕ) (l : List ℕ) :
    tokio_impl.sub dur l = std_thread.sub dur l := by
  rw [tokio_impl.sub, std_thread.sub, subLoop_ti_eq]

/-- `sub` of src/tokio.rs and of std_thread coincide. -/
theorem sub_tm_eq (dur : ℕ) (l : List ℕ) :
    tokioMod.sub dur l = std_thread.sub dur l := by
  rw [tokioMod.sub, std_thread.sub, subLoop_tm_eq]

/-- `add` of tokio_impl and of std_thread coincide. -/
theorem add_ti_eq (dur : ℕ) (l : List ℕ) :
    tokio_impl.add dur l = std_thread.add dur l := rfl

/-- `add` of src/tokio.rs and of std_thread coincide. -/
theorem add_tm_eq (dur : ℕ) (l : List ℕ) :
    tokioMod.add dur l = std_thread.add dur l := rfl

/-! ### Claim theorems -/

/-- Claim C1 (code bug, evaluation at the failing inputs): the claim says the
worker, on observing an empty queue, invokes the completion action exactly
once when the cancellation flag is false and never when it is true, in every
variant.  The tokio_impl worker does exactly that, but the std_thread worker
(std_thread.rs:62) and the src/tokio.rs worker (tokio.rs:25) test the flag
without negation, so they skip the callback on normal expiry (flag false) and
invoke it after a cancellation (flag true) — the inverse of the claim, of the
crate's own documentation and of its `cancel_test`. -/
theorem C1_worker_fire_decision_inverted :
    std_thread.workerCalls false (std_thread.init 20).durations = 0 ∧
    std_thread.workerCalls true [] = 1 ∧
    tokioMod.workerCalls false (tokioMod.init 20).durations = 0 ∧
    tokioMod.workerCalls true [] = 1 ∧
    tokio_impl.workerCalls false (tokio_impl.init 20).durations = 1 ∧
    tokio_impl.workerCalls true [] = 0 := by
  decide

/-- Claim C2 (code bug, evaluation at the failing input): cancelling a fresh
std_thread timer before its queue empties does set the flag and clear the
queue as the claim says, but the completion action then runs once (inside
`cancel`'s own `join`, because the worker's post-drain check fires exactly
when the flag is true), where the claim requires it never to run. -/
theorem C2_std_cancel_runs_callback :
    (std_thread.cancelOp (std_thread.init 20)).2 = true ∧
    (std_thread.cancelOp (std_thread.init 20)).1.cancelled = true ∧
    (std_thread.cancelOp (std_thread.init 20)).1.durations = [] ∧
    (std_thread.cancelOp (std_thread.init 20)).1.calls = 1 := by
  decide

/-- Claim C3, counterexample: let a tokio_impl timer fire (the worker drains
`[20, 0]` in three steps, becomes terminal with one completion-action call),
then call `cancel()`: the claim says it returns success, but the send on the
interruption channel fails (the finished worker dropped the receiver), so
`cancel` returns an error. -/
theorem C3_cex_cancel_after_fire_errs :
    (tokio_impl.workerStep (tokio_impl.workerStep (tokio_impl.workerStep
        (tokio_impl.init 20)))).terminal = true ∧
    (tokio_impl.workerStep (tokio_impl.workerStep (tokio_impl.workerStep
        (tokio_impl.init 20)))).calls = 1 ∧
    (tokio_impl.cancelOp (tokio_impl.workerStep (tokio_impl.workerStep
        (tokio_impl.workerStep (tokio_impl.init 20))))).2 = false := by
  decide

/-- Claim C3 as amended: calling `cancel()` on a timer whose worker is already
terminal never invokes the completion action again and leaves the queue empty;
the blocking variant's `cancel` returns success, while the cooperative
variant's returns an error (its signal send fails once the worker task has
finished and dropped the receiver). -/
theorem C3_cancel_on_terminal_timer (q : List ℕ) (c : Bool) (n : ℕ) :
    (std_thread.cancelOp (TimerState.mk q c n true)).2 = true ∧
    (std_thread.cancelOp (TimerState.mk q c n true)).1.calls = n ∧
    (std_thread.cancelOp (TimerState.mk q c n true)).1.durations = [] ∧
    (tokio_impl.cancelOp (TimerState.mk q c n true)).2 = false ∧
    (tokio_impl.cancelOp (TimerState.mk q c n true)).1.calls = n ∧
    (tokio_impl.cancelOp (TimerState.mk q c n true)).1.durations = [] := by
  refine ⟨?_, ?_, ?_, ?_, ?_, ?_⟩ <;>
    simp [std_thread.cancelOp, tokio_impl.cancelOp]

/-- Claim C6: on a non-empty queue, `add dur` succeeds, appends exactly one
new segment of length `dur` at the consumption end, leaves every existing
segment unchanged, and grows the total remaining delay by exactly `dur`; in
all three modules. -/
theorem C6_add_appends_one_segment (dur a : ℕ) (l : List ℕ) :
    std_thread.add dur (a :: l) = some (dur :: a :: l) ∧
    tokio_impl.add dur (a :: l) = some (dur :: a :: l) ∧
    tokioMod.add dur (a :: l) = some (dur :: a :: l) ∧
    (dur :: a :: l).sum = (a :: l).sum + dur := by
  refine ⟨?_, ?_, ?_, ?_⟩ <;>
    simp [std_thread.add, tokio_impl.add, tokioMod.add, Nat.add_comm,
      Nat.add_assoc, Nat.add_left_comm]

/-- Claim C7: `add` and `sub` fail (with the `AlreadyFired` bail) exactly when
the queue is empty at the call, and a failing call leaves the shared state
unchanged; on a non-empty queue they succeed. -/
theorem C7_fail_iff_empty (dur : ℕ) (l : List ℕ) (c : Bool) (n : ℕ) (t : Bool) :
    (std_thread.add dur l = none ↔ l = []) ∧
    (std_thread.sub dur l = none ↔ l = []) ∧
    (tokio_impl.add dur l = none ↔ l = []) ∧
    (tokio_impl.sub dur l = none ↔ l = []) ∧
    std_thread.addOp dur (TimerState.mk [] c n t) = (TimerState.mk [] c n t, false) ∧
    std_thread.subOp dur (TimerState.mk [] c n t) = (TimerState.mk [] c n t, false) ∧
    tokio_impl.addOp dur (TimerState.mk [] c n t) = (TimerState.mk [] c n t, false) ∧
    tokio_impl.subOp dur (TimerState.mk [] c n t) = (TimerState.mk [] c n t, false) := by
  rcases l with _ | ⟨b, m⟩ <;>
    simp [std_thread.add, std_thread.sub, tokio_impl.add, tokio_impl.sub,
      std_thread.addOp, std_thread.subOp, tokio_impl.addOp, tokio_impl.subOp]

/-- Claim C8: both constructors of both declared variants (and the one of the
undeclared src/tokio.rs module) seed the shared queue with exactly the two
segments `[0, dur]` — a zero-length anchor at the bottom of the stack and the
initial delay on top — and a cancellation flag set to `false`. -/
theorem C8_construction_seeds_queue (d : ℕ) :
    std_thread.init d = TimerState.mk [d, 0] false 0 false ∧
    tokio_impl.init d = TimerState.mk [d, 0] false 0 false ∧
    tokio_impl.initWithSender d = TimerState.mk [d, 0] false 0 false ∧
    tokioMod.init d = TimerState.mk [d, 0] false 0 false ∧
    (std_thread.init d).durations.length = 2 ∧
    (std_thread.init d).durations.getLast? = some 0 ∧
    (std_thread.init d).durations.head? = some d ∧
    (std_thread.init d).durations.sum = d ∧
    (std_thread.init d).cancelled = false := by
  refine ⟨rfl, rfl, rfl, rfl, rfl, rfl, rfl, ?_, rfl⟩
  simp [std_thread.init]

/-- Claim C9: on a non-empty queue, `add dur` immediately followed by
`sub dur` restores the total remaining delay exactly; for `dur > 0` the `sub`
pops back precisely the segment the `add` pushed, restoring the queue
contents exactly (for `dur = 0` the pushed zero-length segment stays, and the
total is still unchanged). -/
theorem C9_add_then_sub_roundtrip (dur a : ℕ) (l : List ℕ) :
    std_thread.add dur (a :: l) = some (dur :: a :: l) ∧
    tokio_impl.add dur (a :: l) = some (dur :: a :: l) ∧
    std_thread.sub dur (dur :: a :: l)
      = some (if 0 < dur then a :: l else dur :: a :: l) ∧
    tokio_impl.sub dur (dur :: a :: l)
      = some (if 0 < dur then a :: l else dur :: a :: l) ∧
    (if 0 < dur then a :: l else dur :: a :: l).sum = (a :: l).sum := by
  have hsub : std_thread.sub dur (dur :: a :: l)
      = some (if 0 < dur then a :: l else dur :: a :: l) := by
    by_cases h0 : 0 < dur
    · simp [std_thread.sub, std_thread.subLoop, h0]
    · have hz : dur = 0 := by omega
      subst hz
      simp [std_thread.sub, std_thread.subLoop]
  refine ⟨?_, ?_, hsub, ?_, ?_⟩
  · simp [std_thread.add]
  · simp [tokio_impl.add]
  · rw [sub_ti_eq]; exact hsub
  · by_cases h0 : 0 < dur
    · simp [h0]
    · have hz : dur = 0 := by omega
      subst hz
      simp

/-- Claim C10: the blocking variant (std_thread.rs), the cooperative variant
(tokio_impl.rs) and the undeclared tokio module (tokio.rs) implement
extensionally identical `add` and `sub` transformations of the duration
vector, with the same success-or-AlreadyFired outcome on every input. -/
theorem C10_three_modules_agree (dur : ℕ) (l : List ℕ) :
    tokio_impl.add dur l = std_thread.add dur l ∧
    tokioMod.add dur l = std_thread.add dur l ∧
    tokio_impl.sub dur l = std_thread.sub dur l ∧
    tokioMod.sub dur l = std_thread.sub dur l :=
  ⟨add_ti_eq dur l, add_tm_eq dur l, sub_ti_eq dur l, sub_tm_eq dur l⟩

/-- Claim C4: on a non-empty queue, `sub dur` succeeds and reduces the total
remaining delay by exactly `min dur (mass of every segment except the bottom
anchor)` — the pop loop takes segments from the consumption end and the
excess, when the popped amount overshoots `dur`, is pushed back — and in
particular the total is never reduced by more than `dur`.  Stated for all
three modules. -/
theorem C4_sub_reduces_by_min (dur a : ℕ) (l : List ℕ) :
    ∃ r, std_thread.sub dur (a :: l) = some r ∧
      tokio_impl.sub dur (a :: l) = some r ∧
      tokioMod.sub dur (a :: l) = some r ∧
      r.sum + min dur ((a :: l).dropLast).sum = (a :: l).sum ∧
      (a :: l).sum ≤ r.sum + dur := by
  have hnil : (a :: l : List ℕ) ≠ [] := List.cons_ne_nil a l
  have hsum := subLoop_sum dur (a :: l) 0
  have hne := subLoop_ne_nil dur (a :: l) 0 hnil
  have hle := subLoop_le_dropLast dur (a :: l) 0
  have hexit := subLoop_exit dur (a :: l) 0
  have hlast := subLoop_getLast dur (a :: l) 0
  have hmass := congrArg List.sum (List.dropLast_append_getLast hnil)
  rw [List.sum_append] at hmass
  simp only [List.sum_cons, List.sum_nil, Nat.add_zero] at hmass
  rcases hsl : std_thread.subLoop dur 0 (a :: l) with ⟨p, l2⟩
  rw [hsl] at hsum hne hle hexit hlast
  dsimp only at hsum hne hle hexit hlast
  simp only [List.sum_cons, Nat.zero_add] at hsum hle hmass
  have hsub : std_thread.sub dur (a :: l)
      = some (if dur < p then (p - dur) :: l2 else l2) := by
    simp [std_thread.sub, hsl]
  by_cases hd : dur < p
  · rw [if_pos hd] at hsub
    refine ⟨(p - dur) :: l2, hsub, ?_, ?_, ?_, ?_⟩
    · rw [sub_ti_eq]; exact hsub
    · rw [sub_tm_eq]; exact hsub
    · simp only [List.sum_cons]; omega
    · simp only [List.sum_cons]; omega
  · rw [if_neg hd] at hsub
    refine ⟨l2, hsub, ?_, ?_, ?_, ?_⟩
    · rw [sub_ti_eq]; exact hsub
    · rw [sub_tm_eq]; exact hsub
    · simp only [List.sum_cons]
      rcases hexit with hex | hex
      · omega
      · have hx : ∃ x, l2 = [x] := by
          rcases l2 with _ | ⟨x, _ | ⟨y, m⟩⟩
          · exact absurd rfl hne
          · exact ⟨x, rfl⟩
          · simp at hex
        obtain ⟨x, rfl⟩ := hx
        rw [List.getLast?_eq_getLast_of_ne_nil hnil] at hlast
        simp only [List.getLast?_singleton, Option.some.injEq] at hlast
        simp only [List.sum_cons, List.sum_nil, Nat.add_zero] at hsum ⊢
        omega
    · simp only [List.sum_cons]
      rcases hexit with hex | hex
      · omega
      · have hx : ∃ x, l2 = [x] := by
          rcases l2 with _ | ⟨x, _ | ⟨y, m⟩⟩
          · exact absurd rfl hne
          · exact ⟨x, rfl⟩
          · simp at hex
        obtain ⟨x, rfl⟩ := hx
        simp only [List.sum_cons, List.sum_nil, Nat.add_zero] at hsum ⊢
        omega

/-- Claim C5: on a non-empty queue, `sub` always succeeds and always leaves a
non-empty queue: the pop loop refuses to remove the final remaining segment,
so the queue never empties as a side effect of `sub`. -/
theorem C5_sub_keeps_queue_nonempty (dur a : ℕ) (l : List ℕ) :
    ∃ r, std_thread.sub dur (a :: l) = some r ∧
      tokio_impl.sub dur (a :: l) = some r ∧
      r ≠ [] := by
  have hnil : (a :: l : List ℕ) ≠ [] := List.cons_ne_nil a l
  have hne := subLoop_ne_nil dur (a :: l) 0 hnil
  rcases hsl : std_thread.subLoop dur 0 (a :: l) with ⟨p, l2⟩
  rw [hsl] at hne
  dsimp only at hne
  have hsub : std_thread.sub dur (a :: l)
      = some (if dur < p then (p - dur) :: l2 else l2) := by
    simp [std_thread.sub, hsl]
  refine ⟨_, hsub, by rw [sub_ti_eq]; exact hsub, ?_⟩
  by_cases hd : dur < p
  · rw [if_pos hd]; exact List.cons_ne_nil _ _
  · rw [if_neg hd]; exact hne
